import Mathlib

/-!
# Verification of the PDFMathTranslate page processor

Shallow embedding of `src/pdf2zh/converter.py` (class `TranslateConverter`,
method `receive_layout`, helper `raw_string` and the translation worker),
together with models of the external collaborators it uses at their
interfaces (the numpy classification mask, the `pymupdf`/`pdfminer` font
metrics, the thread-pool `map`, and the paragraph cache).

Floating-point geometry is embedded with exact rationals (`ℚ`); Python's
mutable page-scan state becomes an explicit `ScanState` record threaded
through a fold over the page's layout items.
-/

/-! ## Small helpers mirroring Python built-ins -/

/-- `xs[-1] = f xs[-1]` on a Python list: rewrite the last element in place
(no effect on the empty list, which the source never reaches). -/
def modifyLast {α : Type} (f : α → α) : List α → List α
  | [] => []
  | [x] => [f x]
  | x :: y :: xs => x :: modifyLast f (y :: xs)

/-- Python `max(xs)` for a nonempty list of rationals (`0` on `[]`,
which the source never reaches). -/
def maxD : List ℚ → ℚ
  | [] => 0
  | x :: xs => xs.foldl max x

/-- Python `int()` on a float: truncation toward zero. -/
def pyInt (q : ℚ) : Int := if q < 0 then -⌊-q⌋ else ⌊q⌋

/-- `np.clip(v, lo, hi)`: `lo` if `v < lo`, else `hi` if `v > hi`, else `v`
(evaluates to `hi` when `lo > hi`, as numpy does). -/
def npClip (v lo hi : Int) : Int := min (max v lo) hi

/-- Python `"%0*x" % n`: lowercase hexadecimal, zero-padded to a minimum width. -/
def pyHex (w : Nat) (n : Nat) : String :=
  let ds := Nat.toDigits 16 n
  String.mk (List.replicate (w - ds.length) '0' ++ ds)

/-- Python `int(s)` for a run of characters: succeeds exactly on a nonempty
all-ASCII-digit string (the source feeds it `group(1)` with the `" "`
characters removed; any remaining non-digit raises `ValueError`). -/
def parsePyInt (cs : List Char) : Option Nat :=
  if cs ≠ [] ∧ cs.all Char.isDigit then
    some (cs.foldl (fun a c => a * 10 + (c.toNat - 48)) 0)
  else none

/-- Characters matched by the regex class `\s` (ASCII range). -/
def isPySpace (c : Char) : Bool :=
  c = ' ' || c = '\t' || c = '\n' || c = '\r' || c = '\x0b' || c = '\x0c'

/-- `.*pat` matched at the start of a character list, `.` not matching a
newline: some split point before `pat` containing no `'\n'`. -/
def dotStarThen (pat : List Char) : List Char → Bool
  | [] => pat.isEmpty
  | c :: rest => pat.isPrefixOf (c :: rest) || (c != '\n' && dotStarThen pat rest)

/-! ## Data model (pdfminer layout items, converter.py lines 104-113) -/

/-- The slice of a `pdfminer` `PDFFont` the page processor reads. -/
structure PFont where
  fontname : String
  deriving DecidableEq, Repr

/-- A positioned-glyph event (`pdfminer` `LTChar` plus the `cid`/`font`
fields the converter injects in `render_char`). `m0`/`m3` are the
horizontal and vertical scale terms `matrix[0]`/`matrix[3]`. -/
structure LTChar where
  text : String
  x0 : ℚ
  x1 : ℚ
  y0 : ℚ
  y1 : ℚ
  size : ℚ
  width : ℚ
  cid : Nat
  font : PFont
  m0 : ℚ
  m3 : ℚ
  deriving DecidableEq, Repr

instance : Inhabited LTChar :=
  ⟨{ text := "", x0 := 0, x1 := 0, y0 := 0, y1 := 0, size := 0, width := 0,
     cid := 0, font := { fontname := "" }, m0 := 0, m3 := 0 }⟩

/-- `child.fontname` on an `LTChar` resolves to its font's name. -/
def LTChar.fontname (c : LTChar) : String := c.font.fontname

/-- A line-drawing event (`pdfminer` `LTLine`): endpoints `pts` and stroke
width. `x0`/`y0` double as the bounding-box corner used for mask lookup. -/
structure LTLine where
  x0 : ℚ
  y0 : ℚ
  x1 : ℚ
  y1 : ℚ
  linewidth : ℚ
  deriving DecidableEq, Repr

/-- One item of the page's layout sequence (figures are flattened upstream
and `LTFigure` children are ignored by the scan, so only glyphs and lines
matter). -/
inductive LTItem where
  | char (c : LTChar)
  | line (l : LTLine)
  deriving DecidableEq, Repr

/-- converter.py lines 104-112: the in-progress paragraph record. -/
structure Paragraph where
  y : ℚ
  x : ℚ
  x0 : ℚ
  x1 : ℚ
  size : ℚ
  font : PFont
  brk : Bool
  deriving DecidableEq, Repr

def defaultParagraph : Paragraph :=
  { y := 0, x := 0, x0 := 0, x1 := 0, size := 0, font := { fontname := "" }, brk := false }

/-! ## Classification mask (external segmentation model, numpy 2-D array) -/

/-- The per-page classification mask: `cells` are the rows of an `h × w`
numpy array of small nonnegative region ids (`shape = (h, w)`). -/
structure LayoutMask where
  cells : List (List Nat)
  deriving DecidableEq, Repr

def LayoutMask.h (m : LayoutMask) : Nat := m.cells.length

def LayoutMask.w (m : LayoutMask) : Nat := (m.cells.headD []).length

/-- converter.py lines 226-227 / 327-328: clamp the integer coordinates into
the mask's index ranges and read `layout[cy, cx]`. Out-of-range indexing
(possible only for a degenerate empty mask) is modelled as `none`. -/
def LayoutMask.lookup (m : LayoutMask) (x y : ℚ) : Option Nat :=
  let cx := npClip (pyInt x) 0 ((m.w : Int) - 1)
  let cy := npClip (pyInt y) 0 ((m.h : Int) - 1)
  if 0 ≤ cx ∧ 0 ≤ cy then (m.cells.get? cy.toNat).bind (fun row => row.get? cx.toNat)
  else none

/-- The region id the scan works with, as the Python `int` it compares with
`xt_cls` (which starts at `-1`). -/
def maskCls (m : LayoutMask) (x y : ℚ) : Int :=
  ((m.lookup x y).getD 0 : Nat)

/-! ## Formula/subscript font heuristics (`vflag`, converter.py lines 182-215) -/

/-- Configuration of the converter relevant to classification: the optional
`--vfont`/`--vchar` regex overrides (abstracted as predicates) and the
external `unicodedata.category` table. -/
structure Config where
  vfont : Option (String → Bool)
  vchar : Option (String → Bool)
  category : Char → String

/-- The built-in math/symbol font-name pattern
`(CM[^R]|(MS|XY|MT|BL|RM|EU|RS)[A-Z]|LINE|TeX-|rsfs|txsy|wasy|stmary|.*Math|.*Sym)`
anchored at the start of the name (`re.match`). -/
def builtinVfontMatch (font : String) : Bool :=
  let cs := font.toList
  (match cs with
    | 'C' :: 'M' :: c :: _ => c != 'R'
    | _ => false)
  || (match cs with
    | a :: b :: c :: _ =>
      ([('M', 'S'), ('X', 'Y'), ('M', 'T'), ('B', 'L'), ('R', 'M'), ('E', 'U'),
        ('R', 'S')].contains (a, b)) && c.isUpper
    | _ => false)
  || font.startsWith "LINE" || font.startsWith "TeX-"
  || font.startsWith "rsfs" || font.startsWith "txsy" || font.startsWith "wasy"
  || font.startsWith "stmary"
  || dotStarThen ("Math".toList) cs || dotStarThen ("Sym".toList) cs

/-- converter.py lines 296-300: `re.match(r"(.*Medi|.*Bold)", name, re.IGNORECASE)`. -/
def boldFontMatch (font : String) : Bool :=
  let cs := font.toList.map Char.toLower
  dotStarThen ("medi".toList) cs || dotStarThen ("bold".toList) cs

/-- converter.py lines 182-215: decide whether a font name / character pair
marks formula (or sub/superscript) material. -/
def vflag (cfg : Config) (font0 chars : String) : Bool :=
  let font := (font0.splitOn "+").getLastD ""
  if chars.startsWith "(cid:" then true
  else if (match cfg.vfont with
    | some p => p font
    | none => builtinVfontMatch font) then true
  else if (match cfg.vchar with
    | some p => p chars
    | none =>
      chars != "" && chars != " " &&
        (decide (cfg.category chars.front ∈ (["Mn", "Sm"] : List String)) ||
          (decide (0x370 ≤ chars.front.toNat) && decide (chars.front.toNat < 0x400))))
    then true
  else false

/-! ## Page scan state (`receive_layout`, part A, converter.py lines 156-345) -/

/-- The mutable locals of `receive_layout`'s scan, as one record.
`pchs` is ghost state: the glyphs appended to each paragraph's text,
recorded exactly where the source does `sstk[-1] += child.get_text()`;
it is used only to state the glyph-assignment invariant. -/
structure ScanState where
  sstk : List String
  pstk : List Paragraph
  pchs : List (List LTChar)
  vbkt : Nat
  vstk : List LTChar
  vlstk : List LTLine
  vfix : ℚ
  var : List (List LTChar)
  varl : List (List LTLine)
  varf : List ℚ
  lstk : List LTLine
  xt : Option LTChar
  xt_cls : Int

def initScanState : ScanState :=
  { sstk := [], pstk := [], pchs := [], vbkt := 0, vstk := [], vlstk := [],
    vfix := 0, var := [], varl := [], varf := [], lstk := [],
    xt := none, xt_cls := -1 }

/-- converter.py lines 221-260: classify the current glyph as formula
(`cur_v`) and update the bracket counter `vbkt`.  The guards read the
current paragraph via `getLastD`; the Python code reaches `sstk[-1]` /
`pstk[-1]` only under `cls == xt_cls`, which guarantees both stacks are
nonempty, so the defaults are never observable on reachable states. -/
def classifyV (cfg : Config) (cls : Int) (st : ScanState) (child : LTChar) : Bool × Nat :=
  let text := child.text
  let cur_v : Bool :=
    if cls = 0
        ∨ (cls = st.xt_cls ∧ (st.sstk.getLastD "").trim.length > 1
            ∧ child.size < (st.pstk.getLastD defaultParagraph).size * (0.79 : ℚ))
        ∨ (child.m0 = 0 ∧ child.m3 = 0) then
      true
    else
      let is_latin_quote : Bool :=
        match st.sstk.getLast? with
        | none => false
        | some current_text =>
          let in_quotes : Bool := current_text.toList.count '"' % 2 == 1
          let has_latin : Bool := text.toList.any (fun c => c.isAlpha && decide (c.toNat < 128))
          in_quotes && has_latin
      if is_latin_quote || !(vflag cfg child.fontname text) then false else true
  if cur_v = true then (true, st.vbkt)
  else
    let r1 : Bool × Nat :=
      if st.vstk ≠ [] ∧ text = "(" then (true, st.vbkt + 1) else (false, st.vbkt)
    if r1.2 ≠ 0 ∧ text = ")" then (true, r1.2 - 1) else r1

/-- converter.py lines 261-279: close the in-progress formula group when the
current glyph ends it, appending the `$v<N>$` placeholder to the current
paragraph and pushing the buffers onto the group stacks. -/
def flushPhase (cur_v : Bool) (cls : Int) (vmax : ℚ) (xtD : LTChar) (child : LTChar)
    (st : ScanState) : ScanState :=
  if cur_v = false ∨ cls ≠ st.xt_cls ∨ (|child.x0 - xtD.x0| > vmax ∧ cls ≠ 0) then
    if st.vstk = [] then st
    else
      let vfix :=
        if cur_v = false ∧ cls = st.xt_cls ∧ child.x0 > maxD (st.vstk.map (·.x0)) then
          (st.vstk.headD child).y0 - child.y0
        else st.vfix
      { st with
        sstk := modifyLast (· ++ ("$v" ++ toString st.var.length ++ "$")) st.sstk,
        var := st.var ++ [st.vstk], varl := st.varl ++ [st.vlstk],
        varf := st.varf ++ [vfix],
        vstk := [], vlstk := [], vfix := 0 }
  else st

/-- converter.py lines 280-290: when no formula is in progress, either extend
the current paragraph (inserting a gap space / line-wrap space) or start a
new paragraph on a region change. -/
def paraPhase (cls : Int) (xtD : LTChar) (child : LTChar) (st : ScanState) : ScanState :=
  if st.vstk = [] then
    if cls = st.xt_cls then
      if child.x0 > xtD.x1 + 1 then
        { st with sstk := modifyLast (· ++ " ") st.sstk }
      else if child.x1 < xtD.x0 then
        { st with sstk := modifyLast (· ++ " ") st.sstk,
                  pstk := modifyLast (fun p => { p with brk := true }) st.pstk }
      else st
    else
      { st with
        sstk := st.sstk ++ [""],
        pchs := st.pchs ++ [[]],
        pstk := st.pstk ++ [{ y := child.y0, x := child.x0, x0 := child.x0,
                              x1 := child.x0, size := child.size, font := child.font,
                              brk := false }] }
  else st

/-- converter.py lines 291-313: push the glyph's text onto the current
paragraph (possibly retroactively correcting the paragraph's size/font), or
push the glyph onto the formula buffer (possibly fixing the vertical
offset from the glyph to the left of an opening formula). -/
def textPhase (cfg : Config) (cur_v : Bool) (cls : Int) (xtD : LTChar) (child : LTChar)
    (st : ScanState) : ScanState :=
  if cur_v = false then
    let st1 :=
      if child.size > (st.pstk.getLastD defaultParagraph).size / (0.79 : ℚ)
          ∨ (st.sstk.getLastD "").trim.length = 1
          ∨ vflag cfg (st.pstk.getLastD defaultParagraph).font.fontname "" = true
          ∨ boldFontMatch (st.pstk.getLastD defaultParagraph).font.fontname = true then
        let upd := fun (p : Paragraph) =>
          { p with y := p.y - (child.size - p.size), size := child.size, font := child.font }
        { st with pstk := modifyLast upd st.pstk }
      else st
    { st1 with sstk := modifyLast (· ++ child.text) st1.sstk,
               pchs := modifyLast (· ++ [child]) st1.pchs }
  else
    let vfix :=
      if st.vstk = [] ∧ cls = st.xt_cls ∧ child.x0 > xtD.x0 then child.y0 - xtD.y0
      else st.vfix
    { st with vstk := st.vstk ++ [child], vfix := vfix }

/-- converter.py lines 314-319: widen the current paragraph's boundaries to
the glyph's box and remember the glyph as the previous character. -/
def boundPhase (child : LTChar) (vbkt : Nat) (cls : Int) (st : ScanState) : ScanState :=
  let upd := fun (p : Paragraph) => { p with x0 := min p.x0 child.x0, x1 := max p.x1 child.x1 }
  { st with pstk := modifyLast upd st.pstk, xt := some child, xt_cls := cls, vbkt := vbkt }

/-- One `LTChar` iteration of the scan loop (converter.py lines 220-319). -/
def stepChar (cfg : Config) (mask : LayoutMask) (vmax : ℚ) (st : ScanState)
    (child : LTChar) : ScanState :=
  let cls : Int := maskCls mask child.x0 child.y0
  let cv := classifyV cfg cls st child
  let xtD := st.xt.getD child
  boundPhase child cv.2 cls
    (textPhase cfg cv.1 cls xtD child
      (paraPhase cls xtD child
        (flushPhase cv.1 cls vmax xtD child st)))

/-- One `LTLine` iteration of the scan loop (converter.py lines 322-332). -/
def stepLine (mask : LayoutMask) (st : ScanState) (child : LTLine) : ScanState :=
  let cls : Int := maskCls mask child.x0 child.y0
  if st.vstk ≠ [] ∧ cls = st.xt_cls then { st with vlstk := st.vlstk ++ [child] }
  else { st with lstk := st.lstk ++ [child] }

def stepItem (cfg : Config) (mask : LayoutMask) (vmax : ℚ) (st : ScanState) :
    LTItem → ScanState
  | .char c => stepChar cfg mask vmax st c
  | .line l => stepLine mask st l

/-- converter.py lines 335-340: flush a formula group left open at the end
of the page. -/
def finalFlush (st : ScanState) : ScanState :=
  if st.vstk = [] then st
  else
    { st with
      sstk := modifyLast (· ++ ("$v" ++ toString st.var.length ++ "$")) st.sstk,
      var := st.var ++ [st.vstk], varl := st.varl ++ [st.vlstk],
      varf := st.varf ++ [st.vfix],
      vstk := [], vlstk := [] }

/-- Part A of `receive_layout`: scan the page's layout items in document
order. `pageWidth` is `ltpage.width`; `vmax = pageWidth / 4` is the inline
formula width threshold. -/
def receive_layout (cfg : Config) (mask : LayoutMask) (pageWidth : ℚ)
    (items : List LTItem) : ScanState :=
  finalFlush (items.foldl (stepItem cfg mask (pageWidth / 4)) initScanState)

/-- converter.py lines 342-345: the width of a flushed formula group. -/
def formulaWidth (v : List LTChar) : ℚ :=
  maxD (v.map (·.x1)) - (v.headD default).x0

/-- The formula width table `vlen` computed after the scan. -/
def computeVlen (st : ScanState) : List ℚ := st.var.map formulaWidth

/-- The glyph events of a page, in document order. -/
def glyphsOf (items : List LTItem) : List LTChar :=
  items.filterMap (fun it => match it with | .char c => some c | .line _ => none)

/-- All glyphs the scan has assigned: those recorded into paragraphs plus
those in closed formula groups plus the open formula buffer. -/
def assignedV (st : ScanState) : List LTChar :=
  st.pchs.flatten ++ st.var.flatten ++ st.vstk

/-- Glyph assignment after the page scan ends (the open buffer has been
flushed by `finalFlush`, so it is not counted). -/
def assigned (st : ScanState) : List LTChar :=
  st.pchs.flatten ++ st.var.flatten

/-! ## Retypesetter (`receive_layout`, part C, converter.py lines 375-483) -/

/-- External font facilities used by the retypesetter, at their interfaces:
`fontmapIsCID f` is `isinstance(self.fontmap[f], PDFCIDFont)`; `notoHasGlyph`
is `self.noto.has_glyph` (a glyph index); `tiroToUnichr` is
`self.fontmap["tiro"].to_unichr` with exceptions as `none`; `fontWidth f c`
is `self.fontmap[f].char_width(c)`; `notoCharLength ch size` is
`self.noto.char_lengths(ch, size)[0]`; `fontid` is the converter's
font-to-resource-name table; `category` is `unicodedata.category`. -/
structure TypesetCtx where
  fontmapIsCID : String → Bool
  notoHasGlyph : Nat → Nat
  tiroToUnichr : Nat → Option Char
  fontWidth : String → Nat → ℚ
  notoCharLength : Char → ℚ → ℚ
  resfont : String
  langOut : String
  fontid : PFont → String
  category : Char → String

/-- The formula-group tables produced by part A and consumed by part C. -/
structure VData where
  var : List (List LTChar)
  varl : List (List LTLine)
  varf : List ℚ
  vlen : List ℚ
  deriving Repr

/-- One emitted content-stream instruction: a positioned text run
(`/F size Tf 1 0 0 1 tx ty Tm [<hex>] TJ`) or a stroked line segment
(`ET q 1 0 0 1 ox oy cm ... w 0 0 m dx dy l S Q BT`). -/
inductive Op where
  | tj (font : String) (size : ℚ) (tx ty : ℚ) (hex : String)
  | strokeLine (lw : ℚ) (ox oy dx dy : ℚ)
  deriving DecidableEq, Repr

/-- Per-paragraph constants of the retypesetting loop. -/
structure ParaCtx where
  x0 : ℚ
  x1 : ℚ
  size : ℚ
  brk : Bool
  deriving Repr

/-- The mutable locals of the per-paragraph `while` loop
(converter.py lines 385-398). `fcur2` is the Python local `fcur_`, which
persists across iterations. -/
structure LoopState where
  x : ℚ
  y : ℚ
  tx : ℚ
  cstk : String
  fcur : Option String
  fcur2 : Option String
  ops : List Op
  deriving Repr

/-- converter.py line 446: language-specific line-spacing multipliers,
defaulting to `1.1`. -/
def lang_space (lang : String) : ℚ :=
  if lang = "zh-CN" then 1.4 else if lang = "zh-TW" then 1.4
  else if lang = "ja" then 1.1 else if lang = "ko" then 1.2
  else if lang = "en" then 1.2 else if lang = "ar" then 1
  else if lang = "ru" then 0.8 else if lang = "uk" then 0.8
  else if lang = "ta" then 0.8 else 1.1

/-- converter.py lines 377-383: encode a buffered run of characters as a PDF
hex string for font `fcur`. -/
def raw_string (ctx : TypesetCtx) (fcur : String) (cstk : String) : String :=
  if fcur = "noto" then
    String.join (cstk.toList.map (fun c => pyHex 4 (ctx.notoHasGlyph c.toNat)))
  else if ctx.fontmapIsCID fcur then
    String.join (cstk.toList.map (fun c => pyHex 4 c.toNat))
  else
    String.join (cstk.toList.map (fun c => pyHex 2 c.toNat))

/-- The part of the `$v<N>$` regex after the optional leading `\$`:
`\s*v([\d\s]+)\$` (case-insensitive `v`). Returns the capture group and the
remainder after the match. -/
def matchVyCore (p : List Char) : Option (List Char × List Char) :=
  match p.dropWhile isPySpace with
  | c :: q1 =>
    if c = 'v' ∨ c = 'V' then
      match q1.takeWhile (fun ch => ch.isDigit || isPySpace ch),
            q1.dropWhile (fun ch => ch.isDigit || isPySpace ch) with
      | _ :: _, '$' :: rest1 =>
        some (q1.takeWhile (fun ch => ch.isDigit || isPySpace ch), rest1)
      | _, _ => none
    else none
  | [] => none

/-- converter.py lines 401-403: `re.match(r"\$?\s*v([\d\s]+)\$", s, re.IGNORECASE)`.
Returns the first capture group and the remainder of the input after the
match; `none` when the regex does not match at the start of `cs`. -/
def matchVy (cs : List Char) : Option (List Char × List Char) :=
  match cs with
  | '$' :: r => matchVyCore r
  | _ => matchVyCore cs

theorem matchVy_nil : matchVy [] = none := rfl

theorem matchVyCore_rest_lt {p grp rest : List Char}
    (h : matchVyCore p = some (grp, rest)) : rest.length < p.length := by
  unfold matchVyCore at h
  have hqs : p.dropWhile isPySpace <:+ p := List.dropWhile_suffix _
  have hqle : (p.dropWhile isPySpace).length ≤ p.length := hqs.length_le
  match hq : p.dropWhile isPySpace with
  | [] => rw [hq] at h; simp at h
  | c :: q1 =>
    rw [hq] at h
    rw [hq] at hqle
    simp only at h
    split at h
    case isTrue =>
      have hrs : q1.dropWhile (fun ch => ch.isDigit || isPySpace ch) <:+ q1 :=
        List.dropWhile_suffix _
      have hrle : (q1.dropWhile (fun ch => ch.isDigit || isPySpace ch)).length ≤ q1.length :=
        hrs.length_le
      split at h
      case h_1 a run1 b rest1 heqrun heqrest =>
        rw [heqrest] at hrle
        cases h with
        | refl =>
          simp only [List.length_cons] at hrle hqle
          omega
      case h_2 => simp at h
    case isFalse => simp at h

theorem matchVy_rest_lt {cs grp rest : List Char} (h : matchVy cs = some (grp, rest)) :
    rest.length < cs.length := by
  unfold matchVy at h
  match cs with
  | [] => simp [matchVyCore] at h
  | '$' :: r =>
    have := matchVyCore_rest_lt (p := r) h
    simp only [List.length_cons]
    omega
  | c :: r =>
    split at h
    case h_1 => rename_i heq; cases heq; exact Nat.lt_of_lt_of_le (matchVyCore_rest_lt h) (by simp)
    case h_2 => exact matchVyCore_rest_lt h

/-- converter.py lines 405-413 and 436-460 (the `vy_regex` arm, with a valid
group index `vid`): flush the text buffer, wrap on a broken paragraph, and
re-emit the formula group's glyphs and thin line segments shifted to the
cursor. `getLastD`/`headD` defaults are unreachable, as flushed groups are
nonempty. Debug-only bookkeeping (`log.isEnabledFor`) is omitted. -/
def formulaStep (ctx : TypesetCtx) (pc : ParaCtx) (vd : VData) (vid : Nat)
    (st : LoopState) : LoopState :=
  let adv := vd.vlen.getD vid 0
  let grpG := vd.var.getD vid []
  let mod : ℚ :=
    match grpG.getLast? with
    | some vch =>
      if vch.text ≠ "" ∧ ctx.category vch.text.front ∈ (["Lm", "Mn", "Sk"] : List String) then
        vch.width
      else 0
    | none => 0
  let st :=
    if st.cstk ≠ "" then
      { st with
        ops := st.ops ++ [Op.tj (st.fcur.getD "None") pc.size st.tx st.y
          (raw_string ctx (st.fcur.getD "None") st.cstk)],
        cstk := "" }
    else st
  let st :=
    if pc.brk = true ∧ st.x + adv > pc.x1 + (0.1 : ℚ) * pc.size then
      { st with x := pc.x0, y := st.y - pc.size * lang_space ctx.langOut }
    else st
  let fix : ℚ := if st.fcur ≠ none then vd.varf.getD vid 0 else 0
  let v0 := grpG.headD default
  let glyphOps := grpG.map (fun vch =>
    Op.tj (ctx.fontid vch.font) vch.size (st.x + vch.x0 - v0.x0) (fix + st.y + vch.y0 - v0.y0)
      (raw_string ctx (ctx.fontid vch.font) (String.singleton (Char.ofNat vch.cid))))
  let lineOps := (vd.varl.getD vid []).filterMap (fun l =>
    if l.linewidth < 5 then
      some (Op.strokeLine l.linewidth (l.x0 + st.x - v0.x0) (l.y0 + fix + st.y - v0.y0)
        (l.x1 - l.x0) (l.y1 - l.y0))
    else none)
  { st with ops := st.ops ++ glyphOps ++ lineOps, fcur := st.fcur2, x := st.x + (adv - mod) }

/-- converter.py lines 414-435 and 436-475 (the literal-character arm):
resolve a font for the character (the default Latin font when the character
round-trips through it, else the configured fallback), compute its advance,
flush/wrap as needed, and buffer the character (eliding a space at the left
margin). -/
def charStep (ctx : TypesetCtx) (pc : ParaCtx) (st : LoopState) (ch : Char) : LoopState :=
  let fcur2 : String :=
    match ctx.tiroToUnichr ch.toNat with
    | some c => if c = ch then "tiro" else ctx.resfont
    | none => ctx.resfont
  let adv : ℚ :=
    if fcur2 = "noto" then ctx.notoCharLength ch pc.size
    else ctx.fontWidth fcur2 ch.toNat * pc.size
  let st :=
    if (some fcur2 ≠ st.fcur ∨ st.x + adv > pc.x1 + (0.1 : ℚ) * pc.size)
        ∧ st.cstk ≠ "" then
      { st with
        ops := st.ops ++ [Op.tj (st.fcur.getD "None") pc.size st.tx st.y
          (raw_string ctx (st.fcur.getD "None") st.cstk)],
        cstk := "" }
    else st
  let st :=
    if pc.brk = true ∧ st.x + adv > pc.x1 + (0.1 : ℚ) * pc.size then
      { st with x := pc.x0, y := st.y - pc.size * lang_space ctx.langOut }
    else st
  let r : LoopState × ℚ :=
    if st.cstk = "" then
      let st := { st with tx := st.x }
      if st.x = pc.x0 ∧ ch = ' ' then (st, 0)
      else ({ st with cstk := st.cstk.push ch }, adv)
    else ({ st with cstk := st.cstk.push ch }, adv)
  { r.1 with fcur := some fcur2, fcur2 := some fcur2, x := r.1.x + r.2 }

/-- One iteration of the `while ptr < len(new)` loop (converter.py
lines 400-475): either consume a `$v<N>$` formula reference — skipping it
when its index fails to parse or is out of range for `vlen`
(lines 407-411) — or consume one literal character. Returns the new loop
state and the remaining input. -/
def typesetStep (ctx : TypesetCtx) (pc : ParaCtx) (vd : VData) (st : LoopState)
    (cs : List Char) : LoopState × List Char :=
  match matchVy cs with
  | some (grp, rest) =>
    match parsePyInt (grp.filter (· != ' ')) with
    | none => (st, rest)
    | some vid =>
      if vid < vd.vlen.length then (formulaStep ctx pc vd vid st, rest)
      else (st, rest)
  | none =>
    match cs with
    | [] => (st, [])
    | ch :: rest => (charStep ctx pc st ch, rest)

theorem typesetStep_rest_lt (ctx : TypesetCtx) (pc : ParaCtx) (vd : VData)
    (st : LoopState) {cs : List Char} (hcs : cs ≠ []) :
    (typesetStep ctx pc vd st cs).2.length < cs.length := by
  unfold typesetStep
  match hm : matchVy cs with
  | some (grp, rest) =>
    have hlt := matchVy_rest_lt hm
    simp only
    split
    · exact hlt
    · split
      · exact hlt
      · exact hlt
  | none =>
    match cs with
    | [] => exact absurd rfl hcs
    | ch :: rest => simp

/-- The full `while` loop over the remaining translated text. -/
def typesetLoop (ctx : TypesetCtx) (pc : ParaCtx) (vd : VData) (st : LoopState)
    (cs : List Char) : LoopState :=
  if hc : cs = [] then st
  else
    let p := typesetStep ctx pc vd st cs
    typesetLoop ctx pc vd p.1 p.2
termination_by cs.length
decreasing_by exact typesetStep_rest_lt ctx pc vd st hc

/-- converter.py lines 386-478: retypeset one paragraph's translated text,
including the final buffer flush (line 477). -/
def typesetPara (ctx : TypesetCtx) (vd : VData) (p : Paragraph) (translated : String) :
    List Op :=
  let pc : ParaCtx := { x0 := p.x0, x1 := p.x1, size := p.size, brk := p.brk }
  let st0 : LoopState :=
    { x := p.x, y := p.y, tx := p.x, cstk := "", fcur := none, fcur2 := none, ops := [] }
  let stF := typesetLoop ctx pc vd st0 translated.toList
  if stF.cstk ≠ "" then
    stF.ops ++ [Op.tj (stF.fcur.getD "None") p.size stF.tx stF.y
      (raw_string ctx (stF.fcur.getD "None") stF.cstk)]
  else stF.ops

/-- converter.py lines 385-478: retypeset every (paragraph, translation)
pair of the page in order (global line re-emission, lines 479-481, is
appended separately and unchanged). -/
def typesetPage (ctx : TypesetCtx) (vd : VData) (ps : List (Paragraph × String)) :
    List Op :=
  (ps.map (fun pr => typesetPara ctx vd pr.1 pr.2)).flatten

/-! ## Translation orchestrator (`receive_layout`, part B, converter.py
lines 347-373) -/

/-- Modelled from the spec: the persistent paragraph cache (repository
module `pdf2zh/cache.py`, which is not under `src/`). The spec gives its
interface as `get(namespace, key) -> text | absent` and
`put(namespace, key, text)`, with the key a deterministic hash of
(paragraph text, translator identity string); we model the key by that
pair itself (a deterministic, collision-free hash) under a fixed
namespace, and the store as an association list. -/
structure Cache where
  entries : List ((String × String) × String)
  deriving Repr

/-- `cache.load_paragraph`: look the key up in the store. -/
def Cache.load (c : Cache) (key : String × String) : Option String :=
  (c.entries.find? (fun e => e.1 = key)).map (·.2)

/-- `cache.write_paragraph`: add the translation under its key. -/
def Cache.write (c : Cache) (key : String × String) (v : String) : Cache :=
  ⟨c.entries ++ [(key, v)]⟩

/-- `tenacity.wait_fixed(1)`: the fixed interval, in seconds, waited
between retry attempts of the worker. -/
def WAIT_FIXED : Nat := 1

/-- converter.py lines 353-369, one attempt of `worker(s)`: hash the
(text, translator identity) pair, consult the cache, and only on a miss
invoke the translator — whose outcome for this attempt is `tr` — writing a
successful translation back. The returned flag records whether the
translator was invoked. -/
def workerOnce (tr : Except String String) (c : Cache) (key : String × String) :
    Except String (String × Cache × Bool) :=
  match c.load key with
  | some new => .ok (new, c, false)
  | none =>
    match tr with
    | .ok new => .ok (new, c.write key new, true)
    | .error e => .error e

/-- The `@retry(wait=wait_fixed(1))` decorator around `worker`
(modelled from the spec: `tenacity.retry` with no stop condition retries
forever on any exception, sleeping `WAIT_FIXED` between attempts).
`attempts i` is the translator's outcome on its `i`-th invocation; `fuel`
is a modelling bound making the unbounded loop a total function — the
theorems quantify over it, mirroring the absence of any retry cap.
Returns the translation, the final cache, the number of attempts made,
and the list of waits slept between attempts. -/
def workerRetry (attempts : Nat → Except String String) (key : String × String) :
    Nat → Cache → Nat → Option (String × Cache × Nat × List Nat)
  | 0, _, _ => none
  | fuel + 1, c, i =>
    match workerOnce (attempts i) c key with
    | .ok (new, c', _) => some (new, c', i + 1, [])
    | .error _ =>
      match workerRetry attempts key fuel c (i + 1) with
      | some (new, c', n, ws) => some (new, c', n, WAIT_FIXED :: ws)
      | none => none

/-- converter.py lines 370-373: `list(executor.map(worker, sstk))`,
modelled from the `concurrent.futures` interface: one task per index is
submitted to the pool; `order` is the sequence in which the pool happens
to complete tasks; completed results are collected keyed by their index,
and the output is read back in index order. -/
def collectTable {α β : Type} (f : α → β) (xs : List α) : List Nat → List (Nat × β)
  | [] => []
  | i :: rest =>
    (match xs.get? i with
     | some a => [(i, f a)]
     | none => []) ++ collectTable f xs rest

def executorMap {α β : Type} (f : α → β) (xs : List α) (order : List Nat) : List β :=
  (List.range xs.length).filterMap
    (fun i => ((collectTable f xs order).find? (fun r => r.1 = i)).map (·.2))

/-! ## Concrete instances used by witnesses and counterexamples -/

/-- `unicodedata.category` (external Unicode table), instantiated on the
ASCII range — the only code points the concrete inputs below evaluate it
at; non-ASCII code points return the unassigned marker. -/
def asciiCategory (c : Char) : String :=
  if c.isUpper then "Lu" else if c.isLower then "Ll" else if c.isDigit then "Nd"
  else if c = ' ' then "Zs"
  else if c = '+' ∨ c = '<' ∨ c = '=' ∨ c = '>' ∨ c = '|' ∨ c = '~' then "Sm"
  else if c = '^' ∨ c = '`' then "Sk"
  else if c = '$' then "Sc"
  else if c = '(' ∨ c = '[' ∨ c = '{' then "Ps"
  else if c = ')' ∨ c = ']' ∨ c = '}' then "Pe"
  else if c = '-' then "Pd"
  else if c = '_' then "Pc"
  else if c.toNat < 32 ∨ c.toNat = 127 then "Cc"
  else if c.toNat < 128 then "Po"
  else "Cn"

/-- A converter configuration with no `--vfont`/`--vchar` overrides. -/
def cfg0 : Config := { vfont := none, vchar := none, category := asciiCategory }

/-! ## C10: the clamped mask lookup always lands in bounds -/

/-- **C10.** For every glyph or line event, the classification-mask lookup
clamps the event's integer `(x0, y0)` coordinates into `[0, w-1]` and
`[0, h-1]` before indexing, so for any (nonempty, rectangular) mask the
lookup returns some region id even for coordinates outside the mask's
area: it never indexes out of bounds. -/
theorem mask_lookup_total (m : LayoutMask) (x y : ℚ)
    (hh : 0 < m.h) (hw : 0 < m.w)
    (hrect : ∀ row ∈ m.cells, row.length = m.w) :
    ∃ v, m.lookup x y = some v := by
  have hwi : (1 : Int) ≤ (m.w : Int) := by exact_mod_cast hw
  have hhi : (1 : Int) ≤ (m.h : Int) := by exact_mod_cast hh
  have hcx0 : 0 ≤ npClip (pyInt x) 0 ((m.w : Int) - 1) :=
    le_min (le_max_right _ _) (by omega)
  have hcx1 : npClip (pyInt x) 0 ((m.w : Int) - 1) ≤ (m.w : Int) - 1 := min_le_right _ _
  have hcy0 : 0 ≤ npClip (pyInt y) 0 ((m.h : Int) - 1) :=
    le_min (le_max_right _ _) (by omega)
  have hcy1 : npClip (pyInt y) 0 ((m.h : Int) - 1) ≤ (m.h : Int) - 1 := min_le_right _ _
  have hlen : m.cells.length = m.h := rfl
  have hcyn : (npClip (pyInt y) 0 ((m.h : Int) - 1)).toNat < m.cells.length := by omega
  obtain ⟨row, hrow⟩ : ∃ row, m.cells.get? (npClip (pyInt y) 0 ((m.h : Int) - 1)).toNat
      = some row := ⟨_, List.get?_eq_get hcyn⟩
  have hrowmem : row ∈ m.cells := by
    rw [List.get?_eq_get hcyn] at hrow
    cases hrow
    exact List.get_mem _ _ _
  have hrl : row.length = m.w := hrect row hrowmem
  have hcxn : (npClip (pyInt x) 0 ((m.w : Int) - 1)).toNat < row.length := by omega
  refine ⟨row.get ⟨_, hcxn⟩, ?_⟩
  unfold LayoutMask.lookup
  rw [if_pos ⟨hcx0, hcy0⟩]
  simp only [hrow, Option.bind_some]
  exact List.get?_eq_get hcxn

def maskW : LayoutMask := ⟨[[1, 2], [3, 4]]⟩

/-- Witness for C10: an event far outside a 2×2 mask still classifies. -/
theorem mask_lookup_total_witness :
    0 < maskW.h ∧ 0 < maskW.w ∧ (∀ row ∈ maskW.cells, row.length = maskW.w)
      ∧ ∃ v, maskW.lookup (-5.5) 100 = some v :=
  ⟨by decide, by decide, by decide,
    mask_lookup_total maskW (-5.5) 100 (by decide) (by decide) (by decide)⟩

/-! ## C6: hex-string encoding rule for emitted text -/

/-- The spec's per-character encoding rule (section 4.4, "Encoding rule for
emitted text bytes"), stated character by character: 4 hex digits of the
fallback font's glyph index under the universal fallback font, 4 hex digits
of the code point under a composite (CID) font, 2 hex digits of the code
point otherwise. -/
def specEncodeChar (ctx : TypesetCtx) (fcur : String) (c : Char) : String :=
  if fcur = "noto" then pyHex 4 (ctx.notoHasGlyph c.toNat)
  else if ctx.fontmapIsCID fcur then pyHex 4 c.toNat
  else pyHex 2 c.toNat

/-- **C6.** For every emitted text run, the hex string is the concatenation
of the per-character encodings chosen by the font rule: glyph-index 4-digit
encoding for the `noto` fallback, code-point 4-digit encoding for CID
fonts, code-point 2-digit encoding otherwise. -/
theorem raw_string_encodes (ctx : TypesetCtx) (fcur : String) (cstk : String) :
    raw_string ctx fcur cstk = String.join (cstk.toList.map (specEncodeChar ctx fcur)) := by
  unfold raw_string specEncodeChar
  by_cases h1 : fcur = "noto"
  · simp [h1]
  · by_cases h2 : ctx.fontmapIsCID fcur = true
    · simp [h1, h2]
    · simp [h1, h2]

/-! ## C8: the worker pool returns translations in original index order -/

theorem collectTable_find {α β : Type} (f : α → β) (xs : List α) (order : List Nat)
    (i : Nat) (x : α) (hx : xs.get? i = some x) (hmem : i ∈ order) :
    (collectTable f xs order).find? (fun r => r.1 = i) = some (i, f x) := by
  induction order with
  | nil => simp at hmem
  | cons j rest ih =>
    by_cases hji : j = i
    · subst hji
      unfold collectTable
      rw [hx]
      simp [List.find?]
    · have hmem' : i ∈ rest := by
        cases hmem with
        | head => exact absurd rfl hji
        | tail _ h => exact h
      unfold collectTable
      match hj : xs.get? j with
      | none => simpa using ih hmem'
      | some a =>
        simp only [List.singleton_append, List.find?]
        rw [show (decide ((j, f a).1 = i)) = false by simp [hji]]
        exact ih hmem'

theorem range'_filterMap_eq {β : Type} (tbl : Nat → Option β) :
    ∀ (ys : List β) (s : Nat),
      (∀ j, (h : j < ys.length) → tbl (s + j) = some (ys.get ⟨j, h⟩)) →
      (List.range' s ys.length).filterMap tbl = ys := by
  intro ys
  induction ys with
  | nil => intro s _; simp
  | cons y ys ih =>
    intro s h
    have h0 : tbl s = some y := by simpa using h 0 (by simp)
    have hrec := ih (s + 1) (fun j hj => by
      have := h (j + 1) (by simpa using Nat.succ_lt_succ hj)
      simpa [Nat.add_assoc, Nat.add_comm 1 j] using this)
    simp only [List.length_cons, List.range'_succ, List.filterMap_cons, h0]
    rw [hrec]

/-- **C8.** For every list of N paragraphs submitted to the worker pool, as
long as every index eventually completes, the collected list has length N
and its i-th element is the translation of the i-th source paragraph —
independent of the completion order. -/
theorem executorMap_ordered {α β : Type} (f : α → β) (xs : List α) (order : List Nat)
    (horder : ∀ i, i < xs.length → i ∈ order) :
    executorMap f xs order = xs.map f ∧
      (executorMap f xs order).length = xs.length ∧
      ∀ i, (executorMap f xs order).get? i = (xs.get? i).map f := by
  have hmain : executorMap f xs order = xs.map f := by
    unfold executorMap
    rw [List.range_eq_range']
    rw [show xs.length = (xs.map f).length by simp]
    apply range'_filterMap_eq
    intro j hj
    have hjx : j < xs.length := by simpa using hj
    have hx : xs.get? j = some (xs.get ⟨j, hjx⟩) := List.get?_eq_get hjx
    rw [Nat.zero_add, collectTable_find f xs order j _ hx (horder j hjx)]
    simp
  refine ⟨hmain, by rw [hmain]; simp, fun i => by rw [hmain]; simp [List.get?_map]⟩

/-- Witness for C8: three paragraphs completing in the order 2, 0, 1 are
still collected in index order. -/
theorem executorMap_ordered_witness :
    executorMap (fun s => s ++ "!") ["a", "b", "c"] [2, 0, 1] = ["a!", "b!", "c!"] :=
  (executorMap_ordered (fun s => s ++ "!") ["a", "b", "c"] [2, 0, 1] (by decide)).1

/-! ## C7: cache-first, write-on-miss, retry-forever worker -/

theorem workerRetry_aux (attempts : Nat → Except String String) (key : String × String)
    (c : Cache) (t : String) (hmiss : c.load key = none) :
    ∀ (k fuel i : Nat),
      (∀ j, j < k → ∃ e, attempts (i + j) = .error e) →
      attempts (i + k) = .ok t → k < fuel →
      workerRetry attempts key fuel c i
        = some (t, c.write key t, i + k + 1, List.replicate k WAIT_FIXED) := by
  intro k
  induction k with
  | zero =>
    intro fuel i _ hok hfuel
    match fuel, hfuel with
    | fuel + 1, _ =>
      simp only [Nat.add_zero] at hok
      unfold workerRetry workerOnce
      rw [hmiss, hok]
      simp
  | succ k ih =>
    intro fuel i hfail hok hfuel
    match fuel, hfuel with
    | fuel + 1, hfuel =>
      obtain ⟨e, he⟩ := hfail 0 (Nat.succ_pos k)
      rw [Nat.add_zero] at he
      have hrec := ih fuel (i + 1)
        (fun j hj => by
          obtain ⟨e', he'⟩ := hfail (j + 1) (Nat.succ_lt_succ hj)
          exact ⟨e', by rw [show i + 1 + j = i + (j + 1) by omega]; exact he'⟩)
        (by rw [show i + 1 + k = i + (k + 1) by omega]; exact hok)
        (by omega)
      unfold workerRetry workerOnce
      rw [hmiss, he]
      simp only [hrec]
      rw [show i + 1 + k + 1 = i + (k + 1) + 1 by omega]
      rfl

/-- **C7.** For every paragraph, the worker first looks up the persistent
cache under the deterministic hash of (text, translator identity): on a hit
it returns the cached text in one attempt, with the cache unchanged and the
translator never invoked; on a miss it invokes the translator and writes
the result back, retrying after every exception with the fixed
`WAIT_FIXED` interval — for an arbitrary number `k` of leading failures
(no retry cap), the result is still obtained on attempt `k + 1` with `k`
fixed-length waits. -/
theorem worker_cache_retry :
    (∀ (attempts : Nat → Except String String) (key : String × String) (c : Cache)
        (v : String) (fuel : Nat), c.load key = some v → 0 < fuel →
        workerRetry attempts key fuel c 0 = some (v, c, 1, [])) ∧
    (∀ (attempts : Nat → Except String String) (key : String × String) (c : Cache)
        (k : Nat) (t : String) (fuel : Nat), c.load key = none →
        (∀ j, j < k → ∃ e, attempts j = .error e) → attempts k = .ok t → k < fuel →
        workerRetry attempts key fuel c 0
          = some (t, c.write key t, k + 1, List.replicate k WAIT_FIXED)) := by
  constructor
  · intro attempts key c v fuel hhit hfuel
    match fuel, hfuel with
    | fuel + 1, _ =>
      unfold workerRetry workerOnce
      rw [hhit]
  · intro attempts key c k t fuel hmiss hfail hok hfuel
    have := workerRetry_aux attempts key c t hmiss k fuel 0
      (fun j hj => by simpa using hfail j hj) (by simpa using hok) hfuel
    simpa using this

/-- Witness for C7: a miss with two failed attempts then success (three
attempts, two fixed waits, result written back), and a hit returning the
cached value in one attempt with no translator call. -/
theorem worker_cache_retry_witness :
    workerRetry (fun i => if i < 2 then .error "boom" else .ok "T") ("hello", "google") 5
        (Cache.mk []) 0
      = some ("T", Cache.write (Cache.mk []) ("hello", "google") "T", 3,
          List.replicate 2 WAIT_FIXED) ∧
    workerRetry (fun _ => .ok "U") ("hello", "google") 1
        (Cache.write (Cache.mk []) ("hello", "google") "T") 0
      = some ("T", Cache.write (Cache.mk []) ("hello", "google") "T", 1, []) := by
  constructor
  · exact worker_cache_retry.2 _ ("hello", "google") (Cache.mk []) 2 "T" 5 rfl
      (fun j hj => ⟨"boom", by simp [hj]⟩) (by norm_num) (by omega)
  · exact worker_cache_retry.1 _ ("hello", "google") _ "T" 1 (by rfl) (by omega)

/-! ## C5: an out-of-range formula reference is skipped, not fatal -/

/-- **C5.** During retypesetting, when the translated text starts (at the
current position) with a `$v<N>$` reference whose index fails to parse or
is not a valid formula-group index, the reference is consumed and skipped:
the loop state is unchanged (no output is emitted for the reference, no
error is raised) and processing continues with the remaining characters. -/
theorem typesetLoop_skips_invalid (ctx : TypesetCtx) (pc : ParaCtx) (vd : VData)
    (st : LoopState) (cs grp rest : List Char)
    (hm : matchVy cs = some (grp, rest))
    (hbad : ∀ n, parsePyInt (grp.filter (· != ' ')) = some n → vd.vlen.length ≤ n) :
    typesetLoop ctx pc vd st cs = typesetLoop ctx pc vd st rest := by
  have hcs : cs ≠ [] := by
    intro h
    subst h
    rw [matchVy_nil] at hm
    cases hm
  have hstep : typesetStep ctx pc vd st cs = (st, rest) := by
    cases hp : parsePyInt (grp.filter (· != ' ')) with
    | none => simp [typesetStep, hm, hp]
    | some vid =>
      have hle := hbad vid hp
      simp [typesetStep, hm, hp, Nat.not_lt.mpr hle]
  rw [typesetLoop, dif_neg hcs]
  simp only [hstep]

def ctxW : TypesetCtx :=
  { fontmapIsCID := fun _ => false, notoHasGlyph := fun _ => 0,
    tiroToUnichr := fun _ => none, fontWidth := fun _ _ => 1,
    notoCharLength := fun _ _ => 1, resfont := "china-ss", langOut := "zh-CN",
    fontid := fun _ => "F1", category := asciiCategory }

def vdW : VData := { var := [], varl := [], varf := [], vlen := [] }

def pcW : ParaCtx := { x0 := 0, x1 := 100, size := 10, brk := false }

def stW : LoopState :=
  { x := 0, y := 0, tx := 0, cstk := "", fcur := none, fcur2 := none, ops := [] }

/-- Witness for C5: a `$v9$` reference on a page with no formula groups is
skipped and the following character is still processed. -/
theorem typesetLoop_skips_invalid_witness :
    typesetLoop ctxW pcW vdW stW ("$v9$x".toList)
      = typesetLoop ctxW pcW vdW stW ("x".toList) :=
  typesetLoop_skips_invalid ctxW pcW vdW stW ("$v9$x".toList) ['9'] ['x'] rfl
    (fun n _ => Nat.zero_le n)

/-! ## C1: sufficient conditions for formula classification -/

/-- **C1 (amended).** A glyph is classified formula whenever its mask cell
is the reserved sentinel `0`, or it is in the previous glyph's region while
the current paragraph's whitespace-stripped text is longer than one
character and its size is below `0.79` of the paragraph's representative
size, or its matrix has zero horizontal and vertical scale terms — in
particular a mask cell of `0` forces formula classification regardless of
the font. (The claim's "second-or-later glyph" is amended to the
stripped-text-length-greater-than-one condition: see the counterexample.) -/
theorem classify_formula_sufficient (cfg : Config) (mask : LayoutMask) (st : ScanState)
    (child : LTChar)
    (h : maskCls mask child.x0 child.y0 = 0
        ∨ (maskCls mask child.x0 child.y0 = st.xt_cls
            ∧ (st.sstk.getLastD "").trim.length > 1
            ∧ child.size < (st.pstk.getLastD defaultParagraph).size * (0.79 : ℚ))
        ∨ (child.m0 = 0 ∧ child.m3 = 0)) :
    (classifyV cfg (maskCls mask child.x0 child.y0) st child).1 = true := by
  unfold classifyV
  simp only [if_pos h]
  simp

def maskZeroW : LayoutMask := ⟨[[0]]⟩

def latinChildW : LTChar :=
  { text := "a", x0 := 0, x1 := 1, y0 := 0, y1 := 1, size := 10, width := 1,
    cid := 97, font := { fontname := "Helvetica" }, m0 := 1, m3 := 1 }

/-- Witness for C1: a plain-Latin-font glyph over mask cell `0` is
classified formula. -/
theorem classify_formula_sufficient_witness :
    maskCls maskZeroW latinChildW.x0 latinChildW.y0 = 0 ∧
    (classifyV cfg0 (maskCls maskZeroW latinChildW.x0 latinChildW.y0)
      initScanState latinChildW).1 = true :=
  ⟨of_decide_eq_true (by with_unfolding_all rfl),
    classify_formula_sufficient cfg0 maskZeroW initScanState latinChildW
      (Or.inl (of_decide_eq_true (by with_unfolding_all rfl)))⟩

def mask5W : LayoutMask := ⟨[[5]]⟩

def aChildC1 : LTChar :=
  { text := "a", x0 := 0, x1 := 1, y0 := 0, y1 := 10, size := 10, width := 1,
    cid := 97, font := { fontname := "Helvetica" }, m0 := 1, m3 := 1 }

def bChildC1 : LTChar :=
  { text := "b", x0 := 1, x1 := 2, y0 := 0, y1 := 7, size := 7, width := 1,
    cid := 98, font := { fontname := "Helvetica" }, m0 := 1, m3 := 1 }

/-- Counterexample to C1 as stated: `b` is the *second* glyph of the same
region-5 paragraph (after just `"a"`), its size `7 < 0.79 · 10`, yet the
assembler keeps it as paragraph text (`"ab"`) and creates no formula
group — because the code requires the stripped paragraph text to be longer
than one character (`len(sstk[-1].strip()) > 1`), not merely nonempty. -/
theorem classify_second_glyph_counterexample :
    bChildC1.size < aChildC1.size * (0.79 : ℚ) ∧
    maskCls mask5W bChildC1.x0 bChildC1.y0 = maskCls mask5W aChildC1.x0 aChildC1.y0 ∧
    maskCls mask5W bChildC1.x0 bChildC1.y0 ≠ 0 ∧
    (receive_layout cfg0 mask5W 100 [.char aChildC1]).sstk = ["a"] ∧
    (receive_layout cfg0 mask5W 100 [.char aChildC1, .char bChildC1]).sstk = ["ab"] ∧
    (receive_layout cfg0 mask5W 100 [.char aChildC1, .char bChildC1]).var = [] :=
  of_decide_eq_true (by with_unfolding_all rfl)

/-! ## C4: Latin characters inside double quotes -/

/-- **C4 (amended).** A glyph whose text contains a Latin-alphabetic
character, arriving while the current paragraph's text holds an odd number
of double quotes, is never classified formula — *provided* none of the
higher-precedence conditions (reserved mask cell, subscript-size rule,
zero-scale matrix) classifies it formula first. -/
theorem latin_quote_not_formula (cfg : Config) (cls : Int) (st : ScanState) (child : LTChar)
    (hs : st.sstk ≠ [])
    (hq : (st.sstk.getLastD "").toList.count '"' % 2 = 1)
    (hl : child.text.toList.any (fun c => c.isAlpha && decide (c.toNat < 128)) = true)
    (h0 : cls ≠ 0)
    (hsub : ¬(cls = st.xt_cls ∧ (st.sstk.getLastD "").trim.length > 1
        ∧ child.size < (st.pstk.getLastD defaultParagraph).size * (0.79 : ℚ)))
    (hm : ¬(child.m0 = 0 ∧ child.m3 = 0)) :
    (classifyV cfg cls st child).1 = false := by
  have hpar : ¬(cls = 0 ∨ (cls = st.xt_cls ∧ (st.sstk.getLastD "").trim.length > 1
      ∧ child.size < (st.pstk.getLastD defaultParagraph).size * (0.79 : ℚ))
      ∨ (child.m0 = 0 ∧ child.m3 = 0)) := by
    intro hor
    rcases hor with h | h | h
    · exact h0 h
    · exact hsub h
    · exact hm h
  have hlast : st.sstk.getLast? = some (st.sstk.getLastD "") := by
    cases hsl : st.sstk.getLast? with
    | none => exact absurd (List.getLast?_eq_none.mp hsl) hs
    | some cur => simp [List.getLastD_eq_getLast?, hsl]
  have hop : child.text ≠ "(" := by
    intro he
    rw [he] at hl
    exact absurd hl (by decide)
  have hcl : child.text ≠ ")" := by
    intro he
    rw [he] at hl
    exact absurd hl (by decide)
  have hq' : ((st.sstk.getLastD "").toList.count '"' % 2 == 1) = true := by
    simp only [beq_iff_eq]
    exact hq
  unfold classifyV
  simp only [if_neg hpar, hlast]
  simp only [hq', hl, Bool.and_self, Bool.true_or, Bool.true_and]
  simp [hop, hcl]

def stQuoteW : ScanState :=
  { initScanState with
    sstk := ["\"x"],
    pstk := [{ y := 0, x := 0, x0 := 0, x1 := 2, size := 10,
               font := { fontname := "Helvetica" }, brk := false }],
    pchs := [[aChildC1]],
    xt := some aChildC1, xt_cls := 5 }

/-- Witness for C4 (amended): a Latin glyph inside an open double quote in
a nonzero mask region, not caught by the size or matrix rules, stays text. -/
theorem latin_quote_not_formula_witness :
    (stQuoteW.sstk.getLastD "").toList.count '"' % 2 = 1 ∧
    (classifyV cfg0 5 stQuoteW aChildC1).1 = false :=
  ⟨by decide,
    latin_quote_not_formula cfg0 5 stQuoteW aChildC1 (by decide) (by decide) (by decide)
      (by decide) (of_decide_eq_true (by with_unfolding_all rfl))
      (of_decide_eq_true (by with_unfolding_all rfl))⟩

/-- Counterexample to C4 as stated: the same quoted Latin-alphabetic glyph
*is* classified formula when its mask cell is the reserved sentinel `0` —
the quote protection is only consulted after the mask/size/matrix
disjunction has failed. -/
theorem latin_quote_counterexample :
    (stQuoteW.sstk.getLastD "").toList.count '"' % 2 = 1 ∧
    (aChildC1.text.toList.any fun c => c.isAlpha && decide (c.toNat < 128)) = true ∧
    maskCls maskZeroW aChildC1.x0 aChildC1.y0 = 0 ∧
    (classifyV cfg0 (maskCls maskZeroW aChildC1.x0 aChildC1.y0) stQuoteW aChildC1).1 = true :=
  of_decide_eq_true (by with_unfolding_all rfl)

/-! ## List helpers for the scan-state lemmas -/

theorem modifyLast_length {α : Type} (f : α → α) (l : List α) :
    (modifyLast f l).length = l.length := by
  induction l with
  | nil => rfl
  | cons x xs ih =>
    cases xs with
    | nil => rfl
    | cons y ys => simpa [modifyLast] using ih

theorem modifyLast_ne_nil {α : Type} (f : α → α) {l : List α} (h : l ≠ []) :
    modifyLast f l ≠ [] := by
  intro he
  apply h
  have := modifyLast_length f l
  rw [he] at this
  exact List.length_eq_zero.mp this.symm

theorem getLastD_modifyLast {α : Type} (f : α → α) :
    ∀ (l : List α) (d : α), l ≠ [] → (modifyLast f l).getLastD d = f (l.getLastD d)
  | [], _, h => absurd rfl h
  | [_], _, _ => rfl
  | x :: y :: ys, d, _ => by
    have h1 : modifyLast f (x :: y :: ys) = x :: modifyLast f (y :: ys) := rfl
    rw [h1, List.getLastD_cons, List.getLastD_cons]
    exact getLastD_modifyLast f (y :: ys) x (by simp)

theorem forall_modifyLast {α : Type} {P : α → Prop} (f : α → α) {l : List α}
    (hl : ∀ a ∈ l, P a) (hf : ∀ a, P a → P (f a)) :
    ∀ a ∈ modifyLast f l, P a := by
  induction l with
  | nil => simp [modifyLast]
  | cons x xs ih =>
    cases xs with
    | nil =>
      intro a ha
      simp only [modifyLast, List.mem_singleton] at ha
      exact ha ▸ hf x (hl x (by simp))
    | cons y ys =>
      intro a ha
      simp only [modifyLast, List.mem_cons] at ha
      rcases ha with rfl | ha
      · exact hl a (by simp)
      · exact ih (fun b hb => hl b (List.mem_cons_of_mem _ hb)) a ha

/-! ## Phase lemmas for `stepChar` -/

theorem flushPhase_of_vstk_nil (cur_v : Bool) (cls : Int) (vmax : ℚ) (xtD child : LTChar)
    (st : ScanState) (h : st.vstk = []) :
    flushPhase cur_v cls vmax xtD child st = st := by
  unfold flushPhase
  split <;> simp [h]

theorem flushPhase_vstk_nil_of_cls_ne (cur_v : Bool) (cls : Int) (vmax : ℚ)
    (xtD child : LTChar) (st : ScanState) (h : cls ≠ st.xt_cls) :
    (flushPhase cur_v cls vmax xtD child st).vstk = [] := by
  unfold flushPhase
  rw [if_pos (Or.inr (Or.inl h))]
  split
  · assumption
  · rfl

theorem flushPhase_pstk (cur_v : Bool) (cls : Int) (vmax : ℚ) (xtD child : LTChar)
    (st : ScanState) : (flushPhase cur_v cls vmax xtD child st).pstk = st.pstk := by
  unfold flushPhase
  split
  · split <;> rfl
  · rfl

theorem flushPhase_xt_cls (cur_v : Bool) (cls : Int) (vmax : ℚ) (xtD child : LTChar)
    (st : ScanState) : (flushPhase cur_v cls vmax xtD child st).xt_cls = st.xt_cls := by
  unfold flushPhase
  split
  · split <;> rfl
  · rfl

theorem flushPhase_pchs (cur_v : Bool) (cls : Int) (vmax : ℚ) (xtD child : LTChar)
    (st : ScanState) : (flushPhase cur_v cls vmax xtD child st).pchs = st.pchs := by
  unfold flushPhase
  split
  · split <;> rfl
  · rfl

theorem paraPhase_pstk_length (cls : Int) (xtD child : LTChar) (st : ScanState) :
    (paraPhase cls xtD child st).pstk.length
      = st.pstk.length + (if st.vstk = [] ∧ cls ≠ st.xt_cls then 1 else 0) := by
  unfold paraPhase
  split_ifs <;> simp_all [modifyLast_length]

theorem textPhase_pstk_length (cfg : Config) (cur_v : Bool) (cls : Int)
    (xtD child : LTChar) (st : ScanState) :
    (textPhase cfg cur_v cls xtD child st).pstk.length = st.pstk.length := by
  unfold textPhase
  split_ifs <;> simp [modifyLast_length]

theorem boundPhase_pstk_length (child : LTChar) (vbkt : Nat) (cls : Int) (st : ScanState) :
    (boundPhase child vbkt cls st).pstk.length = st.pstk.length := by
  unfold boundPhase
  simp [modifyLast_length]

theorem textPhase_sstk (cfg : Config) (cur_v : Bool) (cls : Int)
    (xtD child : LTChar) (st : ScanState) :
    (textPhase cfg cur_v cls xtD child st).sstk
      = if cur_v = false then modifyLast (· ++ child.text) st.sstk else st.sstk := by
  unfold textPhase
  split_ifs <;> rfl

theorem boundPhase_sstk (child : LTChar) (vbkt : Nat) (cls : Int) (st : ScanState) :
    (boundPhase child vbkt cls st).sstk = st.sstk := rfl

theorem textPhase_pstk_brk (cfg : Config) (cur_v : Bool) (cls : Int)
    (xtD child : LTChar) (st : ScanState) (d : Paragraph) (h : st.pstk ≠ []) :
    ((textPhase cfg cur_v cls xtD child st).pstk.getLastD d).brk
      = (st.pstk.getLastD d).brk := by
  unfold textPhase
  split_ifs <;> first | rw [getLastD_modifyLast _ _ _ h] | rfl

theorem boundPhase_pstk_brk (child : LTChar) (vbkt : Nat) (cls : Int) (st : ScanState)
    (d : Paragraph) (h : st.pstk ≠ []) :
    ((boundPhase child vbkt cls st).pstk.getLastD d).brk = (st.pstk.getLastD d).brk := by
  unfold boundPhase
  rw [getLastD_modifyLast _ _ _ h]

theorem ne_nil_of_length_eq {α β : Type} {l' : List α} {l : List β}
    (h : l'.length = l.length) (hl : l ≠ []) : l' ≠ [] := by
  intro he
  apply hl
  rw [he] at h
  exact List.length_eq_zero.mp h.symm

/-! ## C3: paragraph boundary, gap spaces and the line-break flag -/

/-- A flush never empties the paragraph-text stack. -/
theorem flushPhase_sstk_ne (cur_v : Bool) (cls : Int) (vmax : ℚ) (xtD child : LTChar)
    (st : ScanState) (h : st.sstk ≠ []) :
    (flushPhase cur_v cls vmax xtD child st).sstk ≠ [] := by
  unfold flushPhase
  split_ifs <;> first | exact h | exact modifyLast_ne_nil _ h

/-- **C3 (amended).** (1) A glyph starts a new paragraph exactly when its
mask region id differs from the previous glyph's (the initial `xt_cls` is
`-1`, which no mask id equals, so the first glyph always starts one).
(2) Within the same region, whenever the formula buffer is empty *after
the flush decision* — either it was already empty, or this glyph just
closed an open formula group — a horizontal gap of more than one point
appends exactly one literal space to the paragraph text as it stands after
that flush (after any just-appended `$vN$` placeholder, and before the
glyph's own text when it is text-classified). (3) Under the same proviso,
a glyph whose right edge lies left of the previous glyph's left edge
appends one space the same way and sets the paragraph's line-break flag.
A glyph continuing an open formula group receives no space. -/
theorem paragraph_boundary_rules :
    (∀ (cfg : Config) (mask : LayoutMask) (vmax : ℚ) (st : ScanState) (child : LTChar),
      (stepChar cfg mask vmax st child).pstk.length
        = st.pstk.length
          + (if maskCls mask child.x0 child.y0 ≠ st.xt_cls then 1 else 0)) ∧
    (∀ (cfg : Config) (mask : LayoutMask) (vmax : ℚ) (st : ScanState) (child xtc : LTChar),
      st.sstk ≠ [] → st.xt = some xtc →
      maskCls mask child.x0 child.y0 = st.xt_cls →
      (flushPhase (classifyV cfg (maskCls mask child.x0 child.y0) st child).1
        (maskCls mask child.x0 child.y0) vmax xtc child st).vstk = [] →
      child.x0 > xtc.x1 + 1 →
      (stepChar cfg mask vmax st child).sstk.getLastD ""
        = (flushPhase (classifyV cfg (maskCls mask child.x0 child.y0) st child).1
            (maskCls mask child.x0 child.y0) vmax xtc child st).sstk.getLastD "" ++ " "
          ++ (if (classifyV cfg (maskCls mask child.x0 child.y0) st child).1 = false
              then child.text else "")) ∧
    (∀ (cfg : Config) (mask : LayoutMask) (vmax : ℚ) (st : ScanState) (child xtc : LTChar),
      st.sstk ≠ [] → st.pstk ≠ [] → st.xt = some xtc →
      maskCls mask child.x0 child.y0 = st.xt_cls →
      (flushPhase (classifyV cfg (maskCls mask child.x0 child.y0) st child).1
        (maskCls mask child.x0 child.y0) vmax xtc child st).vstk = [] →
      child.x1 < xtc.x0 → child.x0 ≤ child.x1 → xtc.x0 ≤ xtc.x1 →
      ((stepChar cfg mask vmax st child).sstk.getLastD ""
          = (flushPhase (classifyV cfg (maskCls mask child.x0 child.y0) st child).1
              (maskCls mask child.x0 child.y0) vmax xtc child st).sstk.getLastD "" ++ " "
            ++ (if (classifyV cfg (maskCls mask child.x0 child.y0) st child).1 = false
                then child.text else "")) ∧
        ((stepChar cfg mask vmax st child).pstk.getLastD defaultParagraph).brk = true) := by
  refine ⟨?_, ?_, ?_⟩
  · intro cfg mask vmax st child
    simp only [stepChar]
    rw [boundPhase_pstk_length, textPhase_pstk_length, paraPhase_pstk_length,
      flushPhase_pstk, flushPhase_xt_cls]
    by_cases hcls : maskCls mask child.x0 child.y0 = st.xt_cls
    · simp [hcls]
    · simp [hcls, flushPhase_vstk_nil_of_cls_ne _ _ _ _ _ _ hcls]
  · intro cfg mask vmax st child xtc hs hxt hcls hv hgap
    simp only [stepChar, hxt, Option.getD_some]
    set st2 := flushPhase (classifyV cfg (maskCls mask child.x0 child.y0) st child).1
      (maskCls mask child.x0 child.y0) vmax xtc child st with hst2
    have hcls2 : maskCls mask child.x0 child.y0 = st2.xt_cls := by
      rw [hst2, flushPhase_xt_cls]
      exact hcls
    have hs2 : st2.sstk ≠ [] := by
      rw [hst2]
      exact flushPhase_sstk_ne _ _ _ _ _ _ hs
    have hsstk2 : (paraPhase (maskCls mask child.x0 child.y0) xtc child st2).sstk
        = modifyLast (· ++ " ") st2.sstk := by
      unfold paraPhase
      rw [if_pos hv, if_pos hcls2, if_pos hgap]
    rw [boundPhase_sstk, textPhase_sstk, hsstk2]
    by_cases hcv : (classifyV cfg (maskCls mask child.x0 child.y0) st child).1 = false
    · rw [if_pos hcv, if_pos hcv,
        getLastD_modifyLast _ _ _ (modifyLast_ne_nil _ hs2), getLastD_modifyLast _ _ _ hs2]
    · rw [if_neg hcv, if_neg hcv, getLastD_modifyLast _ _ _ hs2, String.append_empty]
  · intro cfg mask vmax st child xtc hs hp hxt hcls hv hover hcx hxx
    have hngap : ¬(child.x0 > xtc.x1 + 1) := by
      push_neg
      linarith
    simp only [stepChar, hxt, Option.getD_some]
    set st2 := flushPhase (classifyV cfg (maskCls mask child.x0 child.y0) st child).1
      (maskCls mask child.x0 child.y0) vmax xtc child st with hst2
    have hcls2 : maskCls mask child.x0 child.y0 = st2.xt_cls := by
      rw [hst2, flushPhase_xt_cls]
      exact hcls
    have hs2 : st2.sstk ≠ [] := by
      rw [hst2]
      exact flushPhase_sstk_ne _ _ _ _ _ _ hs
    have hp2 : st2.pstk ≠ [] := by
      rw [hst2, flushPhase_pstk]
      exact hp
    have hsstk2 : (paraPhase (maskCls mask child.x0 child.y0) xtc child st2).sstk
        = modifyLast (· ++ " ") st2.sstk := by
      unfold paraPhase
      rw [if_pos hv, if_pos hcls2, if_neg hngap, if_pos hover]
    have hpstk2 : (paraPhase (maskCls mask child.x0 child.y0) xtc child st2).pstk
        = modifyLast (fun p => { p with brk := true }) st2.pstk := by
      unfold paraPhase
      rw [if_pos hv, if_pos hcls2, if_neg hngap, if_pos hover]
    have hpne : (paraPhase (maskCls mask child.x0 child.y0) xtc child st2).pstk ≠ [] := by
      rw [hpstk2]
      exact modifyLast_ne_nil _ hp2
    constructor
    · rw [boundPhase_sstk, textPhase_sstk, hsstk2]
      by_cases hcv : (classifyV cfg (maskCls mask child.x0 child.y0) st child).1 = false
      · rw [if_pos hcv, if_pos hcv,
          getLastD_modifyLast _ _ _ (modifyLast_ne_nil _ hs2), getLastD_modifyLast _ _ _ hs2]
      · rw [if_neg hcv, if_neg hcv, getLastD_modifyLast _ _ _ hs2, String.append_empty]
    · have htne : (textPhase cfg (classifyV cfg (maskCls mask child.x0 child.y0) st child).1
          (maskCls mask child.x0 child.y0) xtc child
          (paraPhase (maskCls mask child.x0 child.y0) xtc child st2)).pstk ≠ [] :=
        ne_nil_of_length_eq (textPhase_pstk_length _ _ _ _ _ _) hpne
      rw [boundPhase_pstk_brk _ _ _ _ _ htne, textPhase_pstk_brk _ _ _ _ _ _ _ hpne,
        hpstk2, getLastD_modifyLast _ _ _ hp2]

def fChild1 : LTChar :=
  { text := "x", x0 := 0, x1 := 1, y0 := 0, y1 := 10, size := 10, width := 1,
    cid := 120, font := { fontname := "Helvetica" }, m0 := 1, m3 := 1 }

def fChild2 : LTChar :=
  { text := "y", x0 := 3, x1 := 4, y0 := 0, y1 := 10, size := 10, width := 1,
    cid := 121, font := { fontname := "Helvetica" }, m0 := 1, m3 := 1 }

def xtGlyphW : LTChar :=
  { text := "x", x0 := 0, x1 := 1, y0 := 0, y1 := 10, size := 10, width := 1,
    cid := 120, font := { fontname := "Helvetica" }, m0 := 1, m3 := 1 }

def gapGlyphW : LTChar :=
  { text := "y", x0 := 3, x1 := 4, y0 := 0, y1 := 10, size := 10, width := 1,
    cid := 121, font := { fontname := "Helvetica" }, m0 := 1, m3 := 1 }

def wrapGlyphW : LTChar :=
  { text := "z", x0 := -2, x1 := -1, y0 := 0, y1 := 10, size := 10, width := 1,
    cid := 122, font := { fontname := "Helvetica" }, m0 := 1, m3 := 1 }

def stPrevW : ScanState :=
  { initScanState with
    sstk := ["x"],
    pstk := [{ y := 0, x := 0, x0 := 0, x1 := 1, size := 10,
               font := { fontname := "Helvetica" }, brk := false }],
    pchs := [[xtGlyphW]],
    xt := some xtGlyphW, xt_cls := 5 }

def fGlyphW : LTChar :=
  { text := "α", x0 := 0, x1 := 1, y0 := 0, y1 := 10, size := 10, width := 1,
    cid := 945, font := { fontname := "CMMI10" }, m0 := 1, m3 := 1 }

/-- A state with an open formula buffer: one Greek glyph of region 5 has
been pushed onto `vstk`, its paragraph text still empty. -/
def stOpenFormulaW : ScanState :=
  { initScanState with
    sstk := [""],
    pstk := [{ y := 0, x := 0, x0 := 0, x1 := 1, size := 10,
               font := { fontname := "CMMI10" }, brk := false }],
    pchs := [[]],
    vstk := [fGlyphW],
    xt := some fGlyphW, xt_cls := 5 }

/-- Witness for C3: the first glyph of a page opens a paragraph; a 2-point
gap inserts one space when the buffer was already empty; a text glyph that
itself closes an open formula group (the text-after-inline-formula case)
still gets its gap space, right after the flushed `$v0$` placeholder; and
a glyph left of the previous one inserts one space and sets the break
flag. -/
theorem paragraph_boundary_rules_witness :
    ((stepChar cfg0 mask5W 25 initScanState xtGlyphW).pstk.length
        = initScanState.pstk.length
          + (if maskCls mask5W xtGlyphW.x0 xtGlyphW.y0 ≠ initScanState.xt_cls
             then 1 else 0)) ∧
    ((stepChar cfg0 mask5W 25 stPrevW gapGlyphW).sstk.getLastD ""
        = (flushPhase (classifyV cfg0 (maskCls mask5W gapGlyphW.x0 gapGlyphW.y0)
              stPrevW gapGlyphW).1 (maskCls mask5W gapGlyphW.x0 gapGlyphW.y0) 25
              xtGlyphW gapGlyphW stPrevW).sstk.getLastD "" ++ " "
          ++ (if (classifyV cfg0 (maskCls mask5W gapGlyphW.x0 gapGlyphW.y0)
                  stPrevW gapGlyphW).1 = false
              then gapGlyphW.text else "")) ∧
    ((stepChar cfg0 mask5W 25 stOpenFormulaW gapGlyphW).sstk.getLastD ""
        = (flushPhase (classifyV cfg0 (maskCls mask5W gapGlyphW.x0 gapGlyphW.y0)
              stOpenFormulaW gapGlyphW).1 (maskCls mask5W gapGlyphW.x0 gapGlyphW.y0) 25
              fGlyphW gapGlyphW stOpenFormulaW).sstk.getLastD "" ++ " "
          ++ (if (classifyV cfg0 (maskCls mask5W gapGlyphW.x0 gapGlyphW.y0)
                  stOpenFormulaW gapGlyphW).1 = false
              then gapGlyphW.text else "")) ∧
    ((stepChar cfg0 mask5W 25 stOpenFormulaW gapGlyphW).sstk = ["$v0$ y"]) ∧
    ((stepChar cfg0 mask5W 25 stPrevW wrapGlyphW).sstk.getLastD ""
        = (flushPhase (classifyV cfg0 (maskCls mask5W wrapGlyphW.x0 wrapGlyphW.y0)
              stPrevW wrapGlyphW).1 (maskCls mask5W wrapGlyphW.x0 wrapGlyphW.y0) 25
              xtGlyphW wrapGlyphW stPrevW).sstk.getLastD "" ++ " "
          ++ (if (classifyV cfg0 (maskCls mask5W wrapGlyphW.x0 wrapGlyphW.y0)
                  stPrevW wrapGlyphW).1 = false
              then wrapGlyphW.text else "")) ∧
    ((stepChar cfg0 mask5W 25 stPrevW wrapGlyphW).pstk.getLastD defaultParagraph).brk
      = true :=
  ⟨paragraph_boundary_rules.1 cfg0 mask5W 25 initScanState xtGlyphW,
   paragraph_boundary_rules.2.1 cfg0 mask5W 25 stPrevW gapGlyphW xtGlyphW
     (by decide) rfl (of_decide_eq_true (by with_unfolding_all rfl))
     (of_decide_eq_true (by with_unfolding_all rfl))
     (of_decide_eq_true (by with_unfolding_all rfl)),
   paragraph_boundary_rules.2.1 cfg0 mask5W 25 stOpenFormulaW gapGlyphW fGlyphW
     (by decide) rfl (of_decide_eq_true (by with_unfolding_all rfl))
     (of_decide_eq_true (by with_unfolding_all rfl))
     (of_decide_eq_true (by with_unfolding_all rfl)),
   of_decide_eq_true (by with_unfolding_all rfl),
   (paragraph_boundary_rules.2.2 cfg0 mask5W 25 stPrevW wrapGlyphW xtGlyphW
     (by decide) (by decide) rfl (of_decide_eq_true (by with_unfolding_all rfl))
     (of_decide_eq_true (by with_unfolding_all rfl))
     (of_decide_eq_true (by with_unfolding_all rfl))
     (of_decide_eq_true (by with_unfolding_all rfl))
     (of_decide_eq_true (by with_unfolding_all rfl))).1,
   (paragraph_boundary_rules.2.2 cfg0 mask5W 25 stPrevW wrapGlyphW xtGlyphW
     (by decide) (by decide) rfl (of_decide_eq_true (by with_unfolding_all rfl))
     (of_decide_eq_true (by with_unfolding_all rfl))
     (of_decide_eq_true (by with_unfolding_all rfl))
     (of_decide_eq_true (by with_unfolding_all rfl))
     (of_decide_eq_true (by with_unfolding_all rfl))).2⟩

/-- Counterexample to C3 as stated: two glyphs of the same region (the
reserved region `0`, so both are formula-classified) with a 2-point
horizontal gap produce *no* space in the paragraph text — the gap rule is
skipped whenever the glyph continues an open formula buffer. The final
paragraph text is exactly the placeholder `"$v0$"`, with no space. -/
theorem gap_space_counterexample :
    fChild2.x0 > fChild1.x1 + 1 ∧
    maskCls maskZeroW fChild2.x0 fChild2.y0 = maskCls maskZeroW fChild1.x0 fChild1.y0 ∧
    (receive_layout cfg0 maskZeroW 100 [.char fChild1, .char fChild2]).sstk = ["$v0$"] :=
  of_decide_eq_true (by with_unfolding_all rfl)

/-! ## C9: paragraph boundary invariant x0 ≤ x ≤ x1 -/

def ParaXInv (p : Paragraph) : Prop := p.x0 ≤ p.x ∧ p.x ≤ p.x1

theorem paraPhase_pstk_inv (cls : Int) (xtD child : LTChar) (st : ScanState)
    (h : ∀ p ∈ st.pstk, ParaXInv p) :
    ∀ p ∈ (paraPhase cls xtD child st).pstk, ParaXInv p := by
  unfold paraPhase
  split_ifs
  · exact h
  · exact forall_modifyLast _ h (fun a ha => ha)
  · exact h
  · intro p hp
    rcases List.mem_append.mp hp with hp | hp
    · exact h p hp
    · rcases List.mem_singleton.mp hp with rfl
      exact ⟨le_refl _, le_refl _⟩
  · exact h

theorem textPhase_pstk_inv (cfg : Config) (cur_v : Bool) (cls : Int)
    (xtD child : LTChar) (st : ScanState) (h : ∀ p ∈ st.pstk, ParaXInv p) :
    ∀ p ∈ (textPhase cfg cur_v cls xtD child st).pstk, ParaXInv p := by
  unfold textPhase
  split_ifs <;> first | exact forall_modifyLast _ h (fun a ha => ha) | exact h

theorem boundPhase_pstk_inv (child : LTChar) (vbkt : Nat) (cls : Int) (st : ScanState)
    (h : ∀ p ∈ st.pstk, ParaXInv p) :
    ∀ p ∈ (boundPhase child vbkt cls st).pstk, ParaXInv p := by
  unfold boundPhase
  refine forall_modifyLast _ h (fun a ha => ⟨?_, ?_⟩)
  · exact le_trans (min_le_left _ _) ha.1
  · exact le_trans ha.2 (le_max_left _ _)

theorem stepItem_pstk_inv (cfg : Config) (mask : LayoutMask) (vmax : ℚ)
    (st : ScanState) (it : LTItem) (h : ∀ p ∈ st.pstk, ParaXInv p) :
    ∀ p ∈ (stepItem cfg mask vmax st it).pstk, ParaXInv p := by
  cases it with
  | char c =>
    simp only [stepItem, stepChar]
    apply boundPhase_pstk_inv
    apply textPhase_pstk_inv
    apply paraPhase_pstk_inv
    rw [flushPhase_pstk]
    exact h
  | line l =>
    simp only [stepItem, stepLine]
    split <;> exact h

theorem finalFlush_pstk (st : ScanState) : (finalFlush st).pstk = st.pstk := by
  unfold finalFlush
  split <;> rfl

/-- **C9.** Every paragraph on the paragraph stack after the page scan —
hence, since the statement holds for every item prefix, at every point
after its boundary fields were updated — satisfies `x0 ≤ x ≤ x1`. -/
theorem paragraph_x_bounds (cfg : Config) (mask : LayoutMask) (pw : ℚ)
    (items : List LTItem) (p : Paragraph)
    (hp : p ∈ (receive_layout cfg mask pw items).pstk) :
    p.x0 ≤ p.x ∧ p.x ≤ p.x1 := by
  have main : ∀ (its : List LTItem) (st : ScanState), (∀ q ∈ st.pstk, ParaXInv q) →
      ∀ q ∈ (its.foldl (stepItem cfg mask (pw / 4)) st).pstk, ParaXInv q := by
    intro its
    induction its with
    | nil => intro st h; exact h
    | cons it rest ih =>
      intro st h
      exact ih _ (stepItem_pstk_inv cfg mask _ st it h)
  have := main items initScanState (by intro q hq; simp [initScanState] at hq)
  unfold receive_layout at hp
  rw [finalFlush_pstk] at hp
  exact this p hp

def paraW : Paragraph :=
  { y := 0, x := 0, x0 := min 0 0, x1 := max 0 1, size := 10,
    font := { fontname := "Helvetica" }, brk := false }

/-- Witness for C9: the paragraph produced by a one-glyph page satisfies
the boundary invariant. -/
theorem paragraph_x_bounds_witness :
    paraW ∈ (receive_layout cfg0 mask5W 100 [.char aChildC1]).pstk ∧
    (paraW.x0 ≤ paraW.x ∧ paraW.x ≤ paraW.x1) :=
  ⟨of_decide_eq_true (by with_unfolding_all rfl),
   paragraph_x_bounds cfg0 mask5W 100 [.char aChildC1] paraW
     (of_decide_eq_true (by with_unfolding_all rfl))⟩

/-! ## C2: every glyph is assigned to exactly one paragraph or formula group -/

/-- Reachability invariant of the scan: once a previous glyph exists
(`xt_cls ≥ 0`), at least one paragraph is open. -/
def PchsInv (st : ScanState) : Prop := 0 ≤ st.xt_cls → st.pchs ≠ []

theorem maskCls_nonneg (m : LayoutMask) (x y : ℚ) : 0 ≤ maskCls m x y := by
  unfold maskCls
  exact Int.natCast_nonneg _

theorem flatten_modifyLast_append {α : Type} (c : α) :
    ∀ (l : List (List α)), l ≠ [] → (modifyLast (· ++ [c]) l).flatten = l.flatten ++ [c]
  | [], h => absurd rfl h
  | [x], _ => by simp [modifyLast]
  | x :: y :: ys, _ => by
    have h1 : modifyLast (· ++ [c]) (x :: y :: ys) = x :: modifyLast (· ++ [c]) (y :: ys) :=
      rfl
    rw [h1, List.flatten_cons, List.flatten_cons,
      flatten_modifyLast_append c (y :: ys) (by simp), List.append_assoc]

theorem flushPhase_assignedV (cur_v : Bool) (cls : Int) (vmax : ℚ) (xtD child : LTChar)
    (st : ScanState) : assignedV (flushPhase cur_v cls vmax xtD child st) = assignedV st := by
  unfold flushPhase assignedV
  split_ifs <;> simp [List.flatten_append]

theorem paraPhase_assignedV (cls : Int) (xtD child : LTChar) (st : ScanState) :
    assignedV (paraPhase cls xtD child st) = assignedV st := by
  unfold paraPhase assignedV
  split_ifs <;> simp [List.flatten_append]

theorem boundPhase_assignedV (child : LTChar) (vbkt : Nat) (cls : Int) (st : ScanState) :
    assignedV (boundPhase child vbkt cls st) = assignedV st := rfl

theorem textPhase_assignedV (cfg : Config) (cur_v : Bool) (cls : Int)
    (xtD child : LTChar) (st : ScanState) (h : cur_v = false → st.pchs ≠ []) :
    List.Perm (assignedV (textPhase cfg cur_v cls xtD child st)) (child :: assignedV st) := by
  unfold textPhase
  by_cases hcv : cur_v = false
  · rw [if_pos hcv]
    have hne := h hcv
    split_ifs
    all_goals
      simp only [assignedV, flatten_modifyLast_append child st.pchs hne,
        List.append_assoc, List.singleton_append]
      exact List.perm_middle
  · rw [if_neg hcv]
    show List.Perm (st.pchs.flatten ++ st.var.flatten ++ (st.vstk ++ [child]))
      (child :: (st.pchs.flatten ++ st.var.flatten ++ st.vstk))
    rw [← List.append_assoc]
    exact List.perm_append_singleton _ _

theorem paraPhase_pchs_cases (cls : Int) (xtD child : LTChar) (st : ScanState) :
    (paraPhase cls xtD child st).pchs = st.pchs
      ∨ (paraPhase cls xtD child st).pchs = st.pchs ++ [[]] := by
  unfold paraPhase
  split_ifs <;> simp

theorem paraPhase_pchs_push (cls : Int) (xtD child : LTChar) (st : ScanState)
    (hv : st.vstk = []) (hne : cls ≠ st.xt_cls) :
    (paraPhase cls xtD child st).pchs = st.pchs ++ [[]] := by
  unfold paraPhase
  rw [if_pos hv, if_neg hne]

theorem textPhase_pchs_ne (cfg : Config) (cur_v : Bool) (cls : Int)
    (xtD child : LTChar) (st : ScanState) (h : st.pchs ≠ []) :
    (textPhase cfg cur_v cls xtD child st).pchs ≠ [] := by
  unfold textPhase
  split_ifs <;> first | exact modifyLast_ne_nil _ h | exact h

theorem boundPhase_pchs (child : LTChar) (vbkt : Nat) (cls : Int) (st : ScanState) :
    (boundPhase child vbkt cls st).pchs = st.pchs := rfl

theorem boundPhase_xt_cls (child : LTChar) (vbkt : Nat) (cls : Int) (st : ScanState) :
    (boundPhase child vbkt cls st).xt_cls = cls := rfl

/-- After any glyph step, at least one paragraph is open. -/
theorem stepChar_pchs_ne (cfg : Config) (mask : LayoutMask) (vmax : ℚ)
    (st : ScanState) (child : LTChar) (hinv : PchsInv st) :
    (stepChar cfg mask vmax st child).pchs ≠ [] := by
  simp only [stepChar, boundPhase_pchs]
  apply textPhase_pchs_ne
  by_cases hcls : maskCls mask child.x0 child.y0 = st.xt_cls
  · have hne : st.pchs ≠ [] := hinv (hcls ▸ maskCls_nonneg mask child.x0 child.y0)
    rcases paraPhase_pchs_cases (maskCls mask child.x0 child.y0)
        (st.xt.getD child) child
        (flushPhase (classifyV cfg (maskCls mask child.x0 child.y0) st child).1
          (maskCls mask child.x0 child.y0) vmax (st.xt.getD child) child st) with h | h
    · rw [h, flushPhase_pchs]
      exact hne
    · rw [h, flushPhase_pchs]
      simp
  · rw [paraPhase_pchs_push _ _ _ _
      (flushPhase_vstk_nil_of_cls_ne _ _ _ _ _ _ hcls)
      (by rw [flushPhase_xt_cls]; exact hcls), flushPhase_pchs]
    simp

theorem stepChar_pchsInv (cfg : Config) (mask : LayoutMask) (vmax : ℚ)
    (st : ScanState) (child : LTChar) (hinv : PchsInv st) :
    PchsInv (stepChar cfg mask vmax st child) :=
  fun _ => stepChar_pchs_ne cfg mask vmax st child hinv

theorem stepChar_assignedV (cfg : Config) (mask : LayoutMask) (vmax : ℚ)
    (st : ScanState) (child : LTChar) (hinv : PchsInv st) :
    List.Perm (assignedV (stepChar cfg mask vmax st child)) (child :: assignedV st) := by
  simp only [stepChar, boundPhase_assignedV]
  have hpchs : (classifyV cfg (maskCls mask child.x0 child.y0) st child).1 = false →
      (paraPhase (maskCls mask child.x0 child.y0) (st.xt.getD child) child
        (flushPhase (classifyV cfg (maskCls mask child.x0 child.y0) st child).1
          (maskCls mask child.x0 child.y0) vmax (st.xt.getD child) child st)).pchs ≠ [] := by
    intro _
    by_cases hcls : maskCls mask child.x0 child.y0 = st.xt_cls
    · have hne : st.pchs ≠ [] := hinv (hcls ▸ maskCls_nonneg mask child.x0 child.y0)
      rcases paraPhase_pchs_cases (maskCls mask child.x0 child.y0)
          (st.xt.getD child) child
          (flushPhase (classifyV cfg (maskCls mask child.x0 child.y0) st child).1
            (maskCls mask child.x0 child.y0) vmax (st.xt.getD child) child st) with h | h
      · rw [h, flushPhase_pchs]
        exact hne
      · rw [h, flushPhase_pchs]
        simp
    · rw [paraPhase_pchs_push _ _ _ _
        (flushPhase_vstk_nil_of_cls_ne _ _ _ _ _ _ hcls)
        (by rw [flushPhase_xt_cls]; exact hcls), flushPhase_pchs]
      simp
  have h1 := textPhase_assignedV cfg
    (classifyV cfg (maskCls mask child.x0 child.y0) st child).1
    (maskCls mask child.x0 child.y0) (st.xt.getD child) child
    (paraPhase (maskCls mask child.x0 child.y0) (st.xt.getD child) child
      (flushPhase (classifyV cfg (maskCls mask child.x0 child.y0) st child).1
        (maskCls mask child.x0 child.y0) vmax (st.xt.getD child) child st)) hpchs
  rw [paraPhase_assignedV, flushPhase_assignedV] at h1
  exact h1

theorem stepLine_assignedV (mask : LayoutMask) (st : ScanState) (l : LTLine) :
    assignedV (stepLine mask st l) = assignedV st := by
  simp only [stepLine]
  split <;> rfl

theorem stepLine_pchsInv (mask : LayoutMask) (st : ScanState) (l : LTLine)
    (hinv : PchsInv st) : PchsInv (stepLine mask st l) := by
  simp only [stepLine]
  split <;> exact hinv

theorem scan_assignedV (cfg : Config) (mask : LayoutMask) (vmax : ℚ) :
    ∀ (items : List LTItem) (st : ScanState), PchsInv st →
      List.Perm (assignedV (items.foldl (stepItem cfg mask vmax) st))
        (assignedV st ++ glyphsOf items) := by
  intro items
  induction items with
  | nil =>
    intro st _
    simp [glyphsOf]
  | cons it rest ih =>
    intro st hinv
    cases it with
    | char c =>
      have h1 := ih (stepChar cfg mask vmax st c) (stepChar_pchsInv cfg mask vmax st c hinv)
      have h2 := (stepChar_assignedV cfg mask vmax st c hinv).append_right (glyphsOf rest)
      have h3 : List.Perm (assignedV (rest.foldl (stepItem cfg mask vmax)
          (stepChar cfg mask vmax st c))) ((c :: assignedV st) ++ glyphsOf rest) :=
        h1.trans h2
      have h4 : glyphsOf (.char c :: rest) = c :: glyphsOf rest := rfl
      rw [List.foldl_cons]
      show List.Perm (assignedV (rest.foldl (stepItem cfg mask vmax)
        (stepItem cfg mask vmax st (.char c)))) (assignedV st ++ glyphsOf (.char c :: rest))
      rw [h4]
      refine h3.trans ?_
      rw [List.cons_append]
      exact List.perm_middle.symm
    | line l =>
      have h1 := ih (stepLine mask st l) (stepLine_pchsInv mask st l hinv)
      rw [List.foldl_cons]
      show List.Perm (assignedV (rest.foldl (stepItem cfg mask vmax)
        (stepItem cfg mask vmax st (.line l)))) (assignedV st ++ glyphsOf (.line l :: rest))
      have h4 : glyphsOf (.line l :: rest) = glyphsOf rest := rfl
      rw [h4]
      show List.Perm (assignedV (rest.foldl (stepItem cfg mask vmax)
        (stepLine mask st l))) (assignedV st ++ glyphsOf rest)
      rw [← stepLine_assignedV mask st l]
      exact h1

theorem finalFlush_assigned (st : ScanState) : assigned (finalFlush st) = assignedV st := by
  unfold finalFlush assigned assignedV
  split_ifs with h
  · simp [h]
  · simp [List.flatten_append]

/-- **C2.** After a full page scan, the glyphs recorded into paragraphs
together with the glyphs of all formula groups are a permutation of the
page's glyph events: every glyph is assigned, none is dropped, and none is
counted twice (in particular none sits in two places, since each event
contributes exactly one occurrence). -/
theorem glyph_partition (cfg : Config) (mask : LayoutMask) (pw : ℚ)
    (items : List LTItem) :
    List.Perm (assigned (receive_layout cfg mask pw items)) (glyphsOf items) := by
  unfold receive_layout
  rw [finalFlush_assigned]
  have h := scan_assignedV cfg mask (pw / 4) items initScanState
    (fun h0 => absurd h0 (by decide))
  simpa [assignedV, initScanState] using h
